import Mathlib

/-!
Verification of `src/script.js` (browser image compressor).

The JavaScript source is shallowly embedded:
* byte sizes are `ℕ`, JS numbers used in arithmetic (`file.size * 0.10`,
  quality midpoints, dimensions) are `ℚ`;
* the canvas encode primitives (`canvas.toDataURL(mime, q)`,
  `canvas.toBlob`/`canvas.toDataURL(mime)` at default settings) are an
  abstract `EncodePrims` record giving the byte size of the encode of the
  prepared canvas, since the actual codec is a browser primitive outside
  the repository;
* strings are `List Char`; DOM / batch state is an explicit `UIState`
  record threaded through the handlers.
-/

/-- A member of the JS `FileList`: `name`, `size` (bytes) and MIME `type`. -/
structure JsFile where
  name : List Char
  size : ℕ
  type : List Char
deriving DecidableEq

/-- A decoded `Image` (`img` after `onload`): intrinsic dimensions and an
abstract pixel map, `none` standing for a fully transparent pixel. -/
structure Img where
  width : ℚ
  height : ℚ
  pixels : ℕ → ℕ → Option ℕ

/-- Abstract encode primitives for one prepared canvas: `encodeAt q` is the
byte size produced by `canvas.toDataURL(mimeType, q)` (after
`dataURLtoBlob`), `encodeDefault` the byte size of a default-settings encode
(`canvas.toBlob(..., mimeType)` / `canvas.toDataURL(mimeType)`). -/
structure EncodePrims where
  encodeAt : ℚ → ℕ
  encodeDefault : ℕ

/-- One encode attempt recorded by the search loop: the `quality` passed to
the encoder and the resulting blob `size` (script.js lines 94-99). -/
structure Attempt where
  quality : ℚ
  size : ℕ
deriving DecidableEq

/-- The loop state of the iterative search (script.js lines 88-90):
`minQuality`/`maxQuality` are the current bracket, `best` the best encode
found so far (`bestResult.blob === null` is modelled by `best = none`). -/
structure SearchState where
  minQuality : ℚ
  maxQuality : ℚ
  best : Option Attempt
deriving DecidableEq

/-- `const quality = (minQuality + maxQuality) / 2` (script.js line 94). -/
def midQuality (st : SearchState) : ℚ :=
  (st.minQuality + st.maxQuality) / 2

/-- One iteration of the loop body (script.js lines 94-103): encode at the
midpoint; on `blob.size <= targetSize` overwrite `best` and raise
`minQuality`, otherwise lower `maxQuality`. -/
def searchStep (enc : ℚ → ℕ) (targetSize : ℚ) (st : SearchState) : SearchState :=
  let quality := midQuality st
  let sz := enc quality
  if (sz : ℚ) ≤ targetSize then
    { minQuality := quality, maxQuality := st.maxQuality,
      best := some { quality := quality, size := sz } }
  else
    { minQuality := st.minQuality, maxQuality := quality, best := st.best }

/-- `n` iterations of the loop (`for (let i = 0; i < n; i++)`). -/
def searchRun (enc : ℚ → ℕ) (targetSize : ℚ) : ℕ → SearchState → SearchState
  | 0, st => st
  | n + 1, st => searchRun enc targetSize n (searchStep enc targetSize st)

/-- The qualities at which the loop calls the encoder, in iteration order. -/
def testedQualities (enc : ℚ → ℕ) (targetSize : ℚ) : ℕ → SearchState → List ℚ
  | 0, _ => []
  | n + 1, st => midQuality st :: testedQualities enc targetSize n (searchStep enc targetSize st)

/-- `minQuality = 0`, `maxQuality = 1.0`, `bestResult = {blob: null, ...}`
(script.js lines 88-90). -/
def initState : SearchState :=
  { minQuality := 0, maxQuality := 1, best := none }

/-- One call to a canvas encode primitive, in program order. -/
inductive EncodeCall
  | withQuality (quality : ℚ)
  | blobDefault
  | dataURLDefault
deriving DecidableEq

/-- The object `compressImage` resolves with. Its JS fields are `blob`
(size and MIME type kept), `src` (the same bytes as a data URL — not
modelled separately), `quality` (absent on the non-search path, hence an
`Option`) and a display label `format` (not modelled). Note that the
object has NO `mimeType` field, see `mimeTypeField` below. -/
structure CompressOutput where
  blobSize : ℕ
  blobType : List Char
  qualityUsed : Option ℚ
deriving DecidableEq

/-- `#FFFFFF`, the fill colour of script.js line 75. -/
def whiteColor : ℕ := 0xFFFFFF

/-- The canvas pixels after script.js lines 74-79: the canvas starts fully
transparent, is filled with white when `isPngConversion`, and the image is
drawn (source-over composite) on top. -/
def canvasPixels (img : Img) (isPngConversion : Bool) : ℕ → ℕ → Option ℕ :=
  fun x y =>
    match img.pixels x y with
    | some c => some c
    | none => if isPngConversion then some whiteColor else none

/-- `resizeDimensions` (script.js lines 146-157), over exact rationals in
place of JS doubles. -/
def resizeDimensions (width height max : ℚ) : ℚ × ℚ :=
  if width > max ∨ height > max then
    if width > height then (max, height * (max / width))
    else (width * (max / height), max)
  else (width, height)

/-- `compressImage` (script.js lines 63-114): prepare the canvas (resize,
optional white fill, draw), then either a single default-settings encode
(non-JPEG/WebP formats, lines 82-85 — one `toBlob` for the result plus one
`toDataURL` for the preview `src`), or the 7-iteration quality search
(lines 88-104) with the quality-0.1 fallback (lines 107-110). Returns the
result together with the list of encode-primitive calls made. -/
def compressImage (prims : EncodePrims) (img : Img) (mimeType : List Char)
    (targetSize : ℚ) (isPngConversion : Bool) : CompressOutput × List EncodeCall :=
  let dims := resizeDimensions img.width img.height 1920
  let pixels := canvasPixels img isPngConversion
  if mimeType ≠ "image/jpeg".toList ∧ mimeType ≠ "image/webp".toList then
    ({ blobSize := prims.encodeDefault, blobType := mimeType, qualityUsed := none },
      [EncodeCall.blobDefault, EncodeCall.dataURLDefault])
  else
    let calls := (testedQualities prims.encodeAt targetSize 7 initState).map EncodeCall.withQuality
    match (searchRun prims.encodeAt targetSize 7 initState).best with
    | some b =>
        ({ blobSize := b.size, blobType := mimeType, qualityUsed := some b.quality }, calls)
    | none =>
        ({ blobSize := prims.encodeAt 0.1, blobType := mimeType, qualityUsed := some (0.1 : ℚ) },
          calls ++ [EncodeCall.withQuality (0.1 : ℚ)])

/-- The routing core of `processImage` (script.js lines 41-51):
`targetSize = file.size * 0.10`; PNG inputs are forced to JPEG with the
white-flatten flag set, everything else keeps its native format. -/
def processImageCompress (prims : EncodePrims) (file : JsFile) (img : Img) :
    CompressOutput × List EncodeCall :=
  let targetSize : ℚ := (file.size : ℚ) * 0.10
  if file.type = "image/png".toList then
    compressImage prims img ("image/jpeg".toList) targetSize true
  else
    compressImage prims img file.type targetSize false

/-- JS property access `result.mimeType` (script.js line 55). The object
returned by `compressImage` has fields `blob`, `src`, `quality`, `format`
but no `mimeType` field, so this access yields `undefined` (`none`). -/
def mimeTypeField (r : CompressOutput) : Option (List Char) := none

/-- `String.prototype.lastIndexOf('.')` accumulator: scan left to right,
remembering the index of the last `'.'` seen, `-1` when none. -/
def lastDotAux : List Char → ℕ → Int → Int
  | [], _, acc => acc
  | c :: rest, i, acc => lastDotAux rest (i + 1) (if c = '.' then (i : Int) else acc)

/-- `filename.lastIndexOf('.')` (script.js line 170). -/
def jsLastIndexOfDot (s : List Char) : Int := lastDotAux s 0 (-1)

/-- `mimeType.split('/')[1]` (script.js line 169); a JS index miss yields
`undefined`, which the template literal renders as the text `undefined`. -/
def mimeSubtype (mimeType : List Char) : List Char :=
  (mimeType.splitOn '/').getD 1 ("undefined".toList)

/-- `changeFileExtension` (script.js lines 168-172):
`filename.substring(0, filename.lastIndexOf('.'))` (the `substring` end
argument is clamped to `0` when `lastIndexOf` returns `-1`) followed by
`'.'` and the MIME subtype. -/
def changeFileExtension (filename mimeType : List Char) : List Char :=
  filename.take (jsLastIndexOfDot filename).toNat ++ '.' :: mimeSubtype mimeType

/-- The mutable UI/batch state of the page: the preview container's cards
(modelled by the file names displayed), `compressedFilesForZip`, the
`downloadAllBtn` visibility, and the two counters (script.js lines 2-8). -/
structure UIState where
  previews : List (List Char)
  compressedFilesForZip : List (List Char)
  downloadVisible : Bool
  filesToProcess : ℕ
  filesProcessed : ℕ
deriving DecidableEq

/-- The page's initial state (script.js lines 6-8; the button starts
hidden). -/
def initUI : UIState :=
  { previews := [], compressedFilesForZip := [], downloadVisible := false,
    filesToProcess := 0, filesProcessed := 0 }

/-- `file.type.startsWith('image/')` (script.js line 19). -/
def isImageType (f : JsFile) : Bool := List.isPrefixOf ("image/".toList) f.type

/-- The `change` listener on `imageInput` (script.js lines 10-28): on an
empty selection return untouched; otherwise reset the previews, the zip
list and the button, set the counters from the image-file count, and when
that count is zero launch nothing. Returns the new state together with
the list of files handed to `processImage`. -/
def handleSelection (s : UIState) (files : List JsFile) : UIState × List JsFile :=
  if files.length = 0 then (s, [])
  else
    let s1 : UIState :=
      { s with previews := [], compressedFilesForZip := [], downloadVisible := false }
    let imageFiles := files.filter fun f => isImageType f
    let s2 : UIState := { s1 with filesToProcess := imageFiles.length, filesProcessed := 0 }
    if imageFiles.length = 0 then (s2, []) else (s2, imageFiles)

/-- `checkCompletion` (script.js lines 116-121): increment
`filesProcessed`; when it equals `filesToProcess` and the zip list is
non-empty, show the download-all button. -/
def checkCompletion (s : UIState) : UIState :=
  let s1 : UIState := { s with filesProcessed := s.filesProcessed + 1 }
  if s1.filesProcessed = s1.filesToProcess ∧ 0 < s1.compressedFilesForZip.length then
    { s1 with downloadVisible := true }
  else s1

/-- How one `processImage(file)` invocation (script.js lines 30-60) ends:
either the image fails to load (`img.onerror` rejects the awaited promise)
or it loads with decoded bitmap `img`. -/
inductive LoadOutcome
  | failed
  | loaded (img : Img)

/-- `processImage` (script.js lines 30-60) as a state transformer. On a
load failure the rejection propagates out of the async function and
nothing after the `await` runs. On success the preview card is appended
(line 53); then line 55 evaluates `changeFileExtension(file.name,
result.mimeType)` with `result.mimeType === undefined`, so
`mimeType.split('/')` throws a TypeError and the function aborts before
the zip push (line 54's object literal) and `checkCompletion` (line 59). -/
def processImage (prims : EncodePrims) (s : UIState) (file : JsFile)
    (outcome : LoadOutcome) : UIState :=
  match outcome with
  | LoadOutcome.failed => s
  | LoadOutcome.loaded img =>
      let result := (processImageCompress prims file img).1
      let s1 : UIState := { s with previews := s.previews ++ [file.name] }
      match mimeTypeField result with
      | none => s1
      | some m =>
          let s2 : UIState :=
            { s1 with compressedFilesForZip :=
                s1.compressedFilesForZip ++ [changeFileExtension file.name m] }
          checkCompletion s2

/-- A whole batch: each launched pipeline completes (in some order) with
its outcome and updates the shared state. -/
def runBatch (prims : EncodePrims) (s : UIState)
    (pipelines : List (JsFile × LoadOutcome)) : UIState :=
  pipelines.foldl (fun st p => processImage prims st p.1 p.2) s

/-- Concrete fixture: an encoder whose output is always empty. -/
def primsZero : EncodePrims := { encodeAt := fun _ => 0, encodeDefault := 0 }

/-- Concrete fixture: an encoder always producing 1000 bytes. -/
def primsBig : EncodePrims := { encodeAt := fun _ => 1000, encodeDefault := 1000 }

/-- Concrete fixture: an encoder always producing 1 byte. -/
def primsSmall : EncodePrims := { encodeAt := fun _ => 1, encodeDefault := 1 }

/-- Concrete fixture: a small fully transparent bitmap. -/
def imgSmall : Img := { width := 10, height := 20, pixels := fun _ _ => none }

/-- Concrete fixture: a 1000-byte JPEG selection entry. -/
def fileJpg : JsFile :=
  { name := "photo.jpg".toList, size := 1000, type := "image/jpeg".toList }

/-- Concrete fixture: a 2000-byte PNG selection entry. -/
def filePng : JsFile :=
  { name := "icon.png".toList, size := 2000, type := "image/png".toList }

/-- Concrete fixture: a non-image selection entry. -/
def fileTxt : JsFile :=
  { name := "notes.txt".toList, size := 10, type := "text/plain".toList }

/-- Concrete fixture: a page state after a fully completed earlier batch. -/
def readyState : UIState :=
  { previews := ["a.png".toList], compressedFilesForZip := ["a.jpeg".toList],
    downloadVisible := true, filesToProcess := 1, filesProcessed := 1 }

/-- Concrete fixture: the state right after selecting one image file. -/
def batchOneState : UIState := { initUI with filesToProcess := 1 }

theorem searchRun_succ (enc : ℚ → ℕ) (t : ℚ) (n : ℕ) (st : SearchState) :
    searchRun enc t (n + 1) st = searchStep enc t (searchRun enc t n st) := by
  induction n generalizing st with
  | zero => rfl
  | succ n ih =>
    rw [searchRun, ih, searchRun]

theorem testedQualities_length (enc : ℚ → ℕ) (t : ℚ) (n : ℕ) (st : SearchState) :
    (testedQualities enc t n st).length = n := by
  induction n generalizing st with
  | zero => rfl
  | succ n ih => simp [testedQualities, ih]

theorem testedQualities_get? (enc : ℚ → ℕ) (t : ℚ) (n i : ℕ) (st : SearchState)
    (h : i < n) :
    (testedQualities enc t n st).get? i = some (midQuality (searchRun enc t i st)) := by
  induction n generalizing i st with
  | zero => omega
  | succ n ih =>
    cases i with
    | zero => rfl
    | succ i =>
      show (testedQualities enc t n (searchStep enc t st)).get? i = _
      rw [ih i (searchStep enc t st) (by omega)]
      rfl

theorem searchStep_le (enc : ℚ → ℕ) (t : ℚ) (st : SearchState)
    (h : (enc (midQuality st) : ℚ) ≤ t) :
    searchStep enc t st
      = { minQuality := midQuality st, maxQuality := st.maxQuality,
          best := some { quality := midQuality st, size := enc (midQuality st) } } := by
  simp [searchStep, h]

theorem searchStep_gt (enc : ℚ → ℕ) (t : ℚ) (st : SearchState)
    (h : ¬ ((enc (midQuality st) : ℚ) ≤ t)) :
    searchStep enc t st
      = { minQuality := st.minQuality, maxQuality := midQuality st, best := st.best } := by
  simp [searchStep, h]

theorem midQuality_between (st : SearchState) (h : st.minQuality < st.maxQuality) :
    st.minQuality < midQuality st ∧ midQuality st < st.maxQuality := by
  unfold midQuality
  constructor <;> linarith

theorem searchStep_lt (enc : ℚ → ℕ) (t : ℚ) (st : SearchState)
    (h : st.minQuality < st.maxQuality) :
    (searchStep enc t st).minQuality < (searchStep enc t st).maxQuality := by
  have hm := midQuality_between st h
  by_cases hc : (enc (midQuality st) : ℚ) ≤ t
  · rw [searchStep_le enc t st hc]; exact hm.2
  · rw [searchStep_gt enc t st hc]; exact hm.1

theorem searchStep_bracket (enc : ℚ → ℕ) (t : ℚ) (st : SearchState)
    (h : st.minQuality < st.maxQuality) :
    st.minQuality ≤ (searchStep enc t st).minQuality ∧
    (searchStep enc t st).maxQuality ≤ st.maxQuality := by
  have hm := midQuality_between st h
  by_cases hc : (enc (midQuality st) : ℚ) ≤ t
  · rw [searchStep_le enc t st hc]; exact ⟨hm.1.le, le_refl _⟩
  · rw [searchStep_gt enc t st hc]; exact ⟨le_refl _, hm.2.le⟩

theorem testedQualities_mem (enc : ℚ → ℕ) (t : ℚ) (n : ℕ) (st : SearchState)
    (h : st.minQuality < st.maxQuality) :
    ∀ q ∈ testedQualities enc t n st, st.minQuality < q ∧ q < st.maxQuality := by
  induction n generalizing st with
  | zero => simp [testedQualities]
  | succ n ih =>
    intro q hq
    rcases List.mem_cons.mp hq with rfl | hq
    · exact midQuality_between st h
    · have h1 := searchStep_lt enc t st h
      have h2 := ih (searchStep enc t st) h1 q hq
      have h3 := searchStep_bracket enc t st h
      exact ⟨lt_of_le_of_lt h3.1 h2.1, lt_of_lt_of_le h2.2 h3.2⟩

theorem searchRun_best (enc : ℚ → ℕ) (t : ℚ) (n : ℕ) (st : SearchState) :
    (searchRun enc t n st).best = st.best ∨
    ∃ q ∈ testedQualities enc t n st,
      (searchRun enc t n st).best = some { quality := q, size := enc q } ∧
      (enc q : ℚ) ≤ t := by
  induction n generalizing st with
  | zero => left; rfl
  | succ n ih =>
    have hrun : searchRun enc t (n + 1) st = searchRun enc t n (searchStep enc t st) := rfl
    rcases ih (searchStep enc t st) with h | ⟨q, hq, hbest, hle⟩
    · by_cases hc : (enc (midQuality st) : ℚ) ≤ t
      · right
        refine ⟨midQuality st, List.mem_cons_self _ _, ?_, hc⟩
        rw [hrun, h, searchStep_le enc t st hc]
      · left
        rw [hrun, h, searchStep_gt enc t st hc]
    · right
      exact ⟨q, List.mem_cons_of_mem _ hq, by rw [hrun]; exact hbest, hle⟩

theorem searchRun_best_max (enc : ℚ → ℕ) (t : ℚ) (n : ℕ) (st : SearchState)
    (h : st.minQuality < st.maxQuality) :
    ∀ q ∈ testedQualities enc t n st, (enc q : ℚ) ≤ t →
      ∃ b, (searchRun enc t n st).best = some b ∧ q ≤ b.quality := by
  induction n generalizing st with
  | zero => simp [testedQualities]
  | succ n ih =>
    intro q hq hle
    have hrun : searchRun enc t (n + 1) st = searchRun enc t n (searchStep enc t st) := rfl
    have hstep := searchStep_lt enc t st h
    rcases List.mem_cons.mp hq with rfl | hq
    · have hs := searchStep_le enc t st hle
      rcases searchRun_best enc t n (searchStep enc t st) with hb | ⟨q', hq', hb, _⟩
      · refine ⟨{ quality := midQuality st, size := enc (midQuality st) }, ?_, le_refl _⟩
        rw [hrun, hb, hs]
      · refine ⟨{ quality := q', size := enc q' }, by rw [hrun]; exact hb, ?_⟩
        have hmem := (testedQualities_mem enc t n _ hstep q' hq').1
        rw [hs] at hmem
        exact hmem.le
    · exact ih (searchStep enc t st) hstep q hq hle

theorem searchRun_best_none (enc : ℚ → ℕ) (t : ℚ) (n : ℕ) (st : SearchState) :
    (searchRun enc t n st).best = none ↔
      st.best = none ∧ ∀ q ∈ testedQualities enc t n st, ¬ ((enc q : ℚ) ≤ t) := by
  induction n generalizing st with
  | zero => simp [searchRun, testedQualities]
  | succ n ih =>
    have hrun : searchRun enc t (n + 1) st = searchRun enc t n (searchStep enc t st) := rfl
    rw [hrun, ih (searchStep enc t st)]
    simp only [testedQualities, List.forall_mem_cons]
    by_cases hc : (enc (midQuality st) : ℚ) ≤ t
    · have hb : (searchStep enc t st).best
          = some { quality := midQuality st, size := enc (midQuality st) } := by
        rw [searchStep_le enc t st hc]
      simp [hb, hc]
    · have hb : (searchStep enc t st).best = st.best := by
        rw [searchStep_gt enc t st hc]
      simp [hb, hc]

theorem compressImage_searchable (prims : EncodePrims) (img : Img) (mimeType : List Char)
    (t : ℚ) (flag : Bool)
    (hmime : mimeType = "image/jpeg".toList ∨ mimeType = "image/webp".toList) :
    compressImage prims img mimeType t flag
      = (match (searchRun prims.encodeAt t 7 initState).best with
         | some b =>
             ({ blobSize := b.size, blobType := mimeType, qualityUsed := some b.quality },
               (testedQualities prims.encodeAt t 7 initState).map EncodeCall.withQuality)
         | none =>
             ({ blobSize := prims.encodeAt 0.1, blobType := mimeType,
                qualityUsed := some (0.1 : ℚ) },
               (testedQualities prims.encodeAt t 7 initState).map EncodeCall.withQuality
                 ++ [EncodeCall.withQuality (0.1 : ℚ)])) := by
  have hne : ¬ (mimeType ≠ "image/jpeg".toList ∧ mimeType ≠ "image/webp".toList) := by
    rcases hmime with rfl | rfl <;> simp
  rw [compressImage, if_neg hne]

theorem compressImage_plain (prims : EncodePrims) (img : Img) (mimeType : List Char)
    (t : ℚ) (flag : Bool)
    (h1 : mimeType ≠ "image/jpeg".toList) (h2 : mimeType ≠ "image/webp".toList) :
    compressImage prims img mimeType t flag
      = ({ blobSize := prims.encodeDefault, blobType := mimeType, qualityUsed := none },
          [EncodeCall.blobDefault, EncodeCall.dataURLDefault]) := by
  rw [compressImage, if_pos ⟨h1, h2⟩]

theorem lastDotAux_no_dot (s : List Char) (h : '.' ∉ s) :
    ∀ (i : ℕ) (acc : Int), lastDotAux s i acc = acc := by
  induction s with
  | nil => intro i acc; rfl
  | cons c rest ih =>
    intro i acc
    rw [List.mem_cons, not_or] at h
    rw [lastDotAux, if_neg (fun hc => h.1 hc.symm)]
    exact ih h.2 (i + 1) acc

theorem lastDotAux_append (pre rest : List Char) :
    ∀ (i : ℕ) (acc : Int),
      lastDotAux (pre ++ rest) i acc = lastDotAux rest (i + pre.length) (lastDotAux pre i acc) := by
  induction pre with
  | nil => intro i acc; simp [lastDotAux]
  | cons c pre ih =>
    intro i acc
    show lastDotAux (pre ++ rest) (i + 1) _ = _
    rw [ih (i + 1)]
    have : i + 1 + pre.length = i + (c :: pre).length := by
      simp; omega
    rw [this]
    rfl

theorem exists_last_dot (s : List Char) (h : '.' ∈ s) :
    ∃ pre suf, s = pre ++ '.' :: suf ∧ '.' ∉ suf := by
  induction s with
  | nil => simp at h
  | cons c rest ih =>
    by_cases hr : '.' ∈ rest
    · obtain ⟨pre, suf, heq, hsuf⟩ := ih hr
      exact ⟨c :: pre, suf, by rw [heq]; rfl, hsuf⟩
    · have hc : '.' = c := by
        rcases List.mem_cons.mp h with h1 | h1
        · exact h1
        · exact absurd h1 hr
      exact ⟨[], rest, by rw [← hc]; rfl, hr⟩

theorem jsLastIndexOfDot_split (pre suf : List Char) (h : '.' ∉ suf) :
    jsLastIndexOfDot (pre ++ '.' :: suf) = (pre.length : Int) := by
  unfold jsLastIndexOfDot
  rw [lastDotAux_append pre ('.' :: suf) 0 (-1)]
  rw [lastDotAux, if_pos rfl]
  rw [lastDotAux_no_dot suf h]
  simp

theorem jsLastIndexOfDot_no_dot (s : List Char) (h : '.' ∉ s) :
    jsLastIndexOfDot s = -1 := lastDotAux_no_dot s h 0 (-1)

theorem processImage_failed (prims : EncodePrims) (s : UIState) (file : JsFile) :
    processImage prims s file LoadOutcome.failed = s := rfl

theorem processImage_loaded (prims : EncodePrims) (s : UIState) (file : JsFile) (img : Img) :
    processImage prims s file (LoadOutcome.loaded img)
      = { s with previews := s.previews ++ [file.name] } := rfl

/-- C1: for every image routed through the quality search (MIME type JPEG
or WebP) whose byte budget is reachable at some tested quality, the
returned result's encoded byte size is within the target byte budget, and
the returned quality is the highest among the tested qualities satisfying
the budget: no tested quality strictly between the returned quality and
1.0 also yields a size within budget. -/
theorem c1_quality_search_optimal (prims : EncodePrims) (img : Img) (mimeType : List Char)
    (targetSize : ℚ) (isPngConversion : Bool)
    (hmime : mimeType = "image/jpeg".toList ∨ mimeType = "image/webp".toList)
    (hreach : ∃ q ∈ testedQualities prims.encodeAt targetSize 7 initState,
        (prims.encodeAt q : ℚ) ≤ targetSize) :
    ∃ q, (compressImage prims img mimeType targetSize isPngConversion).1.qualityUsed = some q ∧
      (compressImage prims img mimeType targetSize isPngConversion).1.blobSize
        = prims.encodeAt q ∧
      ((compressImage prims img mimeType targetSize isPngConversion).1.blobSize : ℚ)
        ≤ targetSize ∧
      q ∈ testedQualities prims.encodeAt targetSize 7 initState ∧
      (∀ q' ∈ testedQualities prims.encodeAt targetSize 7 initState,
        (prims.encodeAt q' : ℚ) ≤ targetSize → q' ≤ q) ∧
      (∀ q' ∈ testedQualities prims.encodeAt targetSize 7 initState,
        q < q' → q' < 1 → ¬ ((prims.encodeAt q' : ℚ) ≤ targetSize)) := by
  obtain ⟨q0, hq0, hle0⟩ := hreach
  have hinit : initState.minQuality < initState.maxQuality := by norm_num [initState]
  obtain ⟨b, hb, _⟩ :=
    searchRun_best_max prims.encodeAt targetSize 7 initState hinit q0 hq0 hle0
  rcases searchRun_best prims.encodeAt targetSize 7 initState with hcase | ⟨q, hqmem, hbq, hqle⟩
  · rw [hcase] at hb
    simp [initState] at hb
  · rw [compressImage_searchable prims img mimeType targetSize isPngConversion hmime, hbq]
    have hmax : ∀ q' ∈ testedQualities prims.encodeAt targetSize 7 initState,
        (prims.encodeAt q' : ℚ) ≤ targetSize → q' ≤ q := by
      intro q' hq' hle'
      obtain ⟨b', hb', hq'b⟩ :=
        searchRun_best_max prims.encodeAt targetSize 7 initState hinit q' hq' hle'
      rw [hbq] at hb'
      have : b' = { quality := q, size := prims.encodeAt q } := by
        exact (Option.some.inj hb').symm
      rw [this] at hq'b
      exact hq'b
    refine ⟨q, rfl, rfl, hqle, hqmem, hmax, ?_⟩
    intro q' hq' hlt _ hcontra
    exact absurd (hmax q' hq' hcontra) (not_le.mpr hlt)

/-- Witness for c1_quality_search_optimal: a zero-byte encoder with a zero
budget makes the first tested quality already satisfy the budget, and the
returned blob size is within budget. -/
theorem c1_quality_search_optimal_witness :
    ((compressImage primsZero imgSmall ("image/jpeg".toList) 0 false).1.blobSize : ℚ) ≤ 0 := by
  obtain ⟨q, _, _, hle, _⟩ :=
    c1_quality_search_optimal primsZero imgSmall ("image/jpeg".toList) 0 false (Or.inl rfl)
      ⟨midQuality initState, List.mem_cons_self _ _, by norm_num [primsZero]⟩
  exact hle

/-- C2: for every search-capable input the quality search performs exactly
7 iterations with no early termination (the tested-quality list always has
length 7 whatever the encoder returns, and it is the first 7 encode calls
of `compressImage`); each iteration encodes at the midpoint
`(minQuality + maxQuality) / 2`, and on a satisfying encode overwrites
`best` with that result and raises `minQuality`, while on a failing encode
it lowers `maxQuality`. -/
theorem c2_seven_iterations (prims : EncodePrims) (targetSize : ℚ) :
    (testedQualities prims.encodeAt targetSize 7 initState).length = 7 ∧
    (∀ (img : Img) (mimeType : List Char) (flag : Bool),
      mimeType = "image/jpeg".toList ∨ mimeType = "image/webp".toList →
      (compressImage prims img mimeType targetSize flag).2.take 7
        = (testedQualities prims.encodeAt targetSize 7 initState).map EncodeCall.withQuality) ∧
    (∀ i, i < 7 →
      (testedQualities prims.encodeAt targetSize 7 initState).get? i
        = some (midQuality (searchRun prims.encodeAt targetSize i initState))) ∧
    (∀ st : SearchState,
      ((prims.encodeAt (midQuality st) : ℚ) ≤ targetSize →
        searchStep prims.encodeAt targetSize st
          = { minQuality := midQuality st, maxQuality := st.maxQuality,
              best := some { quality := midQuality st,
                             size := prims.encodeAt (midQuality st) } }) ∧
      (¬ ((prims.encodeAt (midQuality st) : ℚ) ≤ targetSize) →
        searchStep prims.encodeAt targetSize st
          = { minQuality := st.minQuality, maxQuality := midQuality st,
              best := st.best })) := by
  refine ⟨testedQualities_length _ _ _ _, ?_,
    fun i hi => testedQualities_get? _ _ _ i _ hi,
    fun st => ⟨searchStep_le _ _ st, searchStep_gt _ _ st⟩⟩
  intro img mimeType flag hmime
  rw [compressImage_searchable prims img mimeType targetSize flag hmime]
  have hlen : ((testedQualities prims.encodeAt targetSize 7 initState).map
      EncodeCall.withQuality).length = 7 := by
    rw [List.length_map, testedQualities_length]
  cases (searchRun prims.encodeAt targetSize 7 initState).best with
  | none =>
    dsimp only
    rw [List.take_append_of_le_length (le_of_eq hlen.symm)]
    exact List.take_of_length_le (le_of_eq hlen)
  | some b =>
    dsimp only
    exact List.take_of_length_le (le_of_eq hlen)

/-- Witness for c2_seven_iterations: with a zero-byte encoder and budget
10, the tested-quality list has length 7 and the first iteration raises
`minQuality` to the midpoint and records the encode as `best`. -/
theorem c2_seven_iterations_witness :
    (testedQualities primsZero.encodeAt (10 : ℚ) 7 initState).length = 7 ∧
    searchStep primsZero.encodeAt (10 : ℚ) initState
      = { minQuality := midQuality initState, maxQuality := initState.maxQuality,
          best := some { quality := midQuality initState,
                         size := primsZero.encodeAt (midQuality initState) } } :=
  ⟨(c2_seven_iterations primsZero 10).1,
    ((c2_seven_iterations primsZero 10).2.2.2 initState).1 (by norm_num [primsZero])⟩

/-- C3: for every search-capable input whose budget is not met at any of
the 7 tested qualities, the engine performs exactly one fallback encode at
quality 0.1 (visible as the single extra encode call after the 7 search
calls) and returns that result; and on the search path the returned
quality field is always present (non-null result). -/
theorem c3_fallback_encode (prims : EncodePrims) (img : Img) (mimeType : List Char)
    (targetSize : ℚ) (isPngConversion : Bool)
    (hmime : mimeType = "image/jpeg".toList ∨ mimeType = "image/webp".toList)
    (hfail : ∀ q ∈ testedQualities prims.encodeAt targetSize 7 initState,
        ¬ ((prims.encodeAt q : ℚ) ≤ targetSize)) :
    compressImage prims img mimeType targetSize isPngConversion
      = ({ blobSize := prims.encodeAt (0.1 : ℚ), blobType := mimeType,
           qualityUsed := some (0.1 : ℚ) },
          (testedQualities prims.encodeAt targetSize 7 initState).map EncodeCall.withQuality
            ++ [EncodeCall.withQuality (0.1 : ℚ)]) ∧
    (∀ t2 : ℚ,
      ((compressImage prims img mimeType t2 isPngConversion).1.qualityUsed).isSome = true) := by
  have hnone : (searchRun prims.encodeAt targetSize 7 initState).best = none :=
    (searchRun_best_none _ _ _ _).mpr ⟨rfl, hfail⟩
  constructor
  · rw [compressImage_searchable prims img mimeType targetSize isPngConversion hmime, hnone]
  · intro t2
    rw [compressImage_searchable prims img mimeType t2 isPngConversion hmime]
    cases (searchRun prims.encodeAt t2 7 initState).best with
    | none => rfl
    | some b => rfl

/-- Witness for c3_fallback_encode: a constant 1000-byte encoder never
meets a 5-byte budget, so the fallback result at quality 0.1 is returned
after the single extra encode call. -/
theorem c3_fallback_encode_witness :
    compressImage primsBig imgSmall ("image/jpeg".toList) 5 false
      = ({ blobSize := primsBig.encodeAt (0.1 : ℚ), blobType := "image/jpeg".toList,
           qualityUsed := some (0.1 : ℚ) },
          (testedQualities primsBig.encodeAt 5 7 initState).map EncodeCall.withQuality
            ++ [EncodeCall.withQuality (0.1 : ℚ)]) :=
  (c3_fallback_encode primsBig imgSmall ("image/jpeg".toList) 5 false (Or.inl rfl)
    (fun q _ => by norm_num [primsBig])).1

/-- C4: PNG inputs are forced to JPEG with transparency flattened over an
opaque white background before encoding; any other input keeps its native
format with no flattening; and in every case the target byte budget is
`file.size * 0.10`. -/
theorem c4_format_policy (prims : EncodePrims) (file : JsFile) (img : Img) :
    (file.type = "image/png".toList →
      processImageCompress prims file img
          = compressImage prims img ("image/jpeg".toList) ((file.size : ℚ) * 0.10) true ∧
      (∀ x y, img.pixels x y = none → canvasPixels img true x y = some whiteColor) ∧
      (∀ x y c, img.pixels x y = some c → canvasPixels img true x y = some c)) ∧
    (file.type ≠ "image/png".toList →
      processImageCompress prims file img
          = compressImage prims img file.type ((file.size : ℚ) * 0.10) false ∧
      (∀ x y, canvasPixels img false x y = img.pixels x y)) := by
  constructor
  · intro h
    refine ⟨?_, ?_, ?_⟩
    · simp only [processImageCompress]
      rw [if_pos h]
    · intro x y hxy
      simp [canvasPixels, hxy]
    · intro x y c hxy
      simp [canvasPixels, hxy]
  · intro h
    refine ⟨?_, ?_⟩
    · simp only [processImageCompress]
      rw [if_neg h]
    · intro x y
      unfold canvasPixels
      cases img.pixels x y <;> simp

/-- Witness for c4_format_policy: a concrete PNG file is routed to a JPEG
encode with the flatten flag set and budget `2000 * 0.10`, and a
transparent pixel flattens to white. -/
theorem c4_format_policy_witness :
    processImageCompress primsSmall filePng imgSmall
        = compressImage primsSmall imgSmall ("image/jpeg".toList)
            ((filePng.size : ℚ) * 0.10) true ∧
    canvasPixels imgSmall true 0 0 = some whiteColor := by
  have h := (c4_format_policy primsSmall filePng imgSmall).1 (by decide)
  exact ⟨h.1, h.2.1 0 0 rfl⟩

/-- C5: for positive inputs the resizer keeps both dimensions within the
bound, preserves the aspect ratio exactly (rational arithmetic), and
returns the input unchanged when it is already within the bound. -/
theorem c5_resize_dimensions (width height max : ℚ)
    (hw : 0 < width) (hh : 0 < height) (hm : 0 < max) :
    (resizeDimensions width height max).1 ≤ max ∧
    (resizeDimensions width height max).2 ≤ max ∧
    (resizeDimensions width height max).1 / (resizeDimensions width height max).2
      = width / height ∧
    (width ≤ max → height ≤ max → resizeDimensions width height max = (width, height)) := by
  unfold resizeDimensions
  by_cases h1 : width > max ∨ height > max
  · rw [if_pos h1]
    have hcontra : width ≤ max → height ≤ max → False := by
      intro hwm hhm
      rcases h1 with h | h
      · exact absurd hwm (not_le.mpr h)
      · exact absurd hhm (not_le.mpr h)
    by_cases h2 : width > height
    · rw [if_pos h2]
      refine ⟨le_refl _, ?_, ?_, fun hwm hhm => absurd (hcontra hwm hhm) not_false⟩
      · rw [← mul_div_assoc, div_le_iff₀ hw]
        nlinarith
      · field_simp
        ring
    · rw [if_neg h2]
      refine ⟨?_, le_refl _, ?_, fun hwm hhm => absurd (hcontra hwm hhm) not_false⟩
      · rw [← mul_div_assoc, div_le_iff₀ hh]
        nlinarith [not_lt.mp h2]
      · field_simp
        ring
  · rw [if_neg h1]
    push_neg at h1
    exact ⟨h1.1, h1.2, rfl, fun _ _ => rfl⟩

/-- Witness for c5_resize_dimensions: dimensions already within the bound
are returned unchanged. -/
theorem c5_resize_dimensions_witness :
    resizeDimensions 4 3 10 = (4, 3) :=
  (c5_resize_dimensions 4 3 10 (by norm_num) (by norm_num) (by norm_num)).2.2.2
    (by norm_num) (by norm_num)

/-- C6 counterexample: for a non-search format (GIF), the non-search path
performs TWO encode-primitive calls at default settings — `canvas.toBlob`
for the result and `canvas.toDataURL` for the preview `src` (script.js
lines 83-84) — so the claim "exactly one encode call is made" is false. -/
theorem c6_counterexample :
    (compressImage primsSmall imgSmall ("image/gif".toList) 5 false).2.length = 2 ∧
    ¬ ((compressImage primsSmall imgSmall ("image/gif".toList) 5 false).2.length = 1) := by
  have h := compressImage_plain primsSmall imgSmall ("image/gif".toList) 5 false
    (by decide) (by decide)
  rw [h]
  exact ⟨rfl, by decide⟩

/-- C6 (amended): for every input whose encode format is not JPEG and not
WebP, the pipeline skips the quality search entirely; exactly two encode
calls are made, both at default settings (one producing the returned blob,
one the preview data URL); the default-encode result is returned; and the
byte budget is not enforced — the output does not depend on the target
size at all. -/
theorem c6_nonsearch_two_default_encodes (prims : EncodePrims) (img : Img)
    (mimeType : List Char) (targetSize : ℚ) (isPngConversion : Bool)
    (h1 : mimeType ≠ "image/jpeg".toList) (h2 : mimeType ≠ "image/webp".toList) :
    compressImage prims img mimeType targetSize isPngConversion
      = ({ blobSize := prims.encodeDefault, blobType := mimeType, qualityUsed := none },
          [EncodeCall.blobDefault, EncodeCall.dataURLDefault]) ∧
    (∀ t2 : ℚ, compressImage prims img mimeType t2 isPngConversion
        = compressImage prims img mimeType targetSize isPngConversion) ∧
    (∀ c ∈ (compressImage prims img mimeType targetSize isPngConversion).2,
        ∀ q : ℚ, c ≠ EncodeCall.withQuality q) := by
  have hmain := fun t => compressImage_plain prims img mimeType t isPngConversion h1 h2
  refine ⟨hmain targetSize, fun t2 => (hmain t2).trans (hmain targetSize).symm, ?_⟩
  rw [hmain targetSize]
  intro c hc q
  rcases List.mem_cons.mp hc with rfl | hc
  · simp
  · rcases List.mem_cons.mp hc with rfl | hc
    · simp
    · simp at hc

/-- Witness for c6_nonsearch_two_default_encodes: the GIF path returns the
default encode with both default calls. -/
theorem c6_nonsearch_two_default_encodes_witness :
    compressImage primsBig imgSmall ("image/gif".toList) 7 true
      = ({ blobSize := primsBig.encodeDefault, blobType := "image/gif".toList,
           qualityUsed := none },
          [EncodeCall.blobDefault, EncodeCall.dataURLDefault]) :=
  (c6_nonsearch_two_default_encodes primsBig imgSmall ("image/gif".toList) 7 true
    (by decide) (by decide)).1

/-- C7 counterexample: a pipeline failure does NOT advance the completion
counter — `processImage` has no catch, so the rejection aborts the async
function before `checkCompletion` runs; here a failing image in a
one-image batch leaves `filesProcessed` at 0, where the claim requires 1. -/
theorem c7_counterexample :
    ¬ ((processImage primsSmall batchOneState fileJpg LoadOutcome.failed).filesProcessed
        = batchOneState.filesProcessed + 1) := by
  rw [processImage_failed]
  decide

/-- C7 (amended): a per-image failure is fully isolated — the batch state
is left completely unchanged (so nothing is raised to the batch level,
`filesToProcess` is not decremented, and no outcome entry is produced),
sibling images keep processing, and `filesProcessed` does NOT advance for
the failed image (the claim's "completedCount still advances" is the one
part that fails: the rejection skips `checkCompletion`). -/
theorem c7_failure_isolated (prims : EncodePrims) (s : UIState) (file : JsFile)
    (rest : List (JsFile × LoadOutcome)) :
    processImage prims s file LoadOutcome.failed = s ∧
    runBatch prims s ((file, LoadOutcome.failed) :: rest) = runBatch prims s rest :=
  ⟨rfl, rfl⟩

/-- C8: code bug. `compressedFilesForZip.push({name: changeFileExtension(
file.name, result.mimeType), ...})` reads `result.mimeType`, a field the
result object does not have (`displayPreviewCard` uses `result.blob.type`
for the same purpose), so every successful pipeline throws a TypeError
after rendering its preview card: the zip list never grows,
`checkCompletion` is never called, and the export affordance never
activates — even for a batch of one JPEG that compresses fine. The first
two conjuncts show `totalExpected` is still set correctly to the image
count. -/
theorem c8_export_never_activates :
    (handleSelection initUI [fileJpg]).1.filesToProcess = 1 ∧
    (handleSelection initUI [fileJpg]).2 = [fileJpg] ∧
    mimeTypeField ((processImageCompress primsSmall fileJpg imgSmall).1) = none ∧
    runBatch primsSmall (handleSelection initUI [fileJpg]).1
        [(fileJpg, LoadOutcome.loaded imgSmall)]
      = { previews := [fileJpg.name], compressedFilesForZip := [],
          downloadVisible := false, filesToProcess := 1, filesProcessed := 0 } := by
  refine ⟨by decide, by decide, rfl, ?_⟩
  show processImage primsSmall (handleSelection initUI [fileJpg]).1 fileJpg
      (LoadOutcome.loaded imgSmall) = _
  rw [processImage_loaded]
  decide

/-- C9 counterexample: selecting a non-empty set of files that contains no
image file does NOT leave the UI untouched — the listener resets the
previews, the zip list, the button and the counters before the
`filesToProcess === 0` early return; here the prior completed-batch state
is wiped. -/
theorem c9_counterexample :
    ¬ ((handleSelection readyState [fileTxt]).1 = readyState) := by
  decide

/-- C9 (amended): for every non-empty selection with zero image-type
files, no pipelines are launched and the state becomes the freshly reset
one — previews cleared, zip outcomes discarded, export affordance hidden,
both counters zero (the claim's "no UI state change" is the one part that
fails: the reset at script.js lines 15-21 runs before the early return at
line 23). -/
theorem c9_zero_images_resets (s : UIState) (files : List JsFile)
    (hne : files ≠ [])
    (hzero : (files.filter fun f => isImageType f).length = 0) :
    (handleSelection s files).1
      = { previews := [], compressedFilesForZip := [], downloadVisible := false,
          filesToProcess := 0, filesProcessed := 0 } ∧
    (handleSelection s files).2 = [] := by
  have hlen : ¬ (files.length = 0) := by
    simpa [List.length_eq_zero] using hne
  unfold handleSelection
  rw [if_neg hlen]
  simp only [hzero, if_pos rfl]
  constructor
  · rfl
  · rfl

/-- Witness for c9_zero_images_resets: one text file selected over a
previously completed batch resets everything and launches nothing. -/
theorem c9_zero_images_resets_witness :
    (handleSelection readyState [fileTxt]).1
      = { previews := [], compressedFilesForZip := [], downloadVisible := false,
          filesToProcess := 0, filesProcessed := 0 } ∧
    (handleSelection readyState [fileTxt]).2 = [] :=
  c9_zero_images_resets readyState [fileTxt] (by decide) (by decide)

/-- C10: a filename with no `'.'` loses its name entirely — `lastIndexOf`
returns `-1`, `substring(0, -1)` clamps to the empty string, and the
derived name is just `'.'` followed by the MIME subtype; a filename with a
`'.'` has everything after its last `'.'` replaced by the subtype. -/
theorem c10_change_extension (filename mimeType : List Char) :
    ('.' ∉ filename →
      changeFileExtension filename mimeType = '.' :: mimeSubtype mimeType) ∧
    ('.' ∈ filename →
      ∃ pre suf, filename = pre ++ '.' :: suf ∧ '.' ∉ suf ∧
        changeFileExtension filename mimeType = pre ++ '.' :: mimeSubtype mimeType) := by
  constructor
  · intro h
    unfold changeFileExtension
    rw [jsLastIndexOfDot_no_dot filename h]
    rfl
  · intro h
    obtain ⟨pre, suf, heq, hsuf⟩ := exists_last_dot filename h
    refine ⟨pre, suf, heq, hsuf, ?_⟩
    unfold changeFileExtension
    rw [heq, jsLastIndexOfDot_split pre suf hsuf]
    rw [Int.toNat_natCast]
    rw [List.take_left']
    rfl

/-- Witness for c10_change_extension: a dotless filename maps to just the
dot plus the subtype extension. -/
theorem c10_change_extension_witness :
    changeFileExtension ("README".toList) ("image/webp".toList)
      = '.' :: mimeSubtype ("image/webp".toList) :=
  (c10_change_extension ("README".toList) ("image/webp".toList)).1 (by decide)
